import Mathlib

/-!
Verification of the Personal Library Manager (src/main.py).

The program keeps an in-memory list of book records (dicts with five
fields) and persists it to a JSON file.  We embed the record type, the
JSON value universe, and the five core operations `load_library`,
`save_library`, `add_book`, `remove_book`, `search_books`,
`display_statistics` as pure Lean functions, shallowly following the
Python source line by line.  Streamlit display calls (st.success,
st.warning, st.error) are modelled as the returned signal components.
-/

namespace PLM

/-- A book record: the five fields of the dictionaries built by
`add_book` in src/main.py (title, author, publication_year, genre, read). -/
structure Book where
  title : String
  author : String
  publication_year : Int
  genre : String
  read : Bool
deriving DecidableEq, Repr

/-- JSON values, as produced by `json.load` / consumed by `json.dump`.
Numbers are restricted to integers, which is all the program ever
serializes (publication_year). -/
inductive Json where
  | null
  | bool (b : Bool)
  | num (n : Int)
  | str (s : String)
  | arr (elems : List Json)
  | obj (fields : List (String × Json))

/-- The dictionary `json.dump` serializes for one book: the five keys in
the insertion order used by `add_book` in src/main.py. -/
def bookToJson (b : Book) : Json :=
  .obj [("title", .str b.title), ("author", .str b.author),
        ("publication_year", .num b.publication_year),
        ("genre", .str b.genre), ("read", .bool b.read)]

/-- Reading one parsed JSON value back as a book record (the shape
`json.load` returns for a dictionary written by `save_library`). -/
def bookOfJson : Json → Option Book
  | .obj [("title", .str t), ("author", .str a),
          ("publication_year", .num y),
          ("genre", .str g), ("read", .bool r)] =>
      some { title := t, author := a, publication_year := y, genre := g, read := r }
  | _ => none

/-- Reading a list of parsed JSON values back as book records. -/
def decodeBooks : List Json → Option (List Book)
  | [] => some []
  | j :: js =>
      match bookOfJson j, decodeBooks js with
      | some b, some bs => some (b :: bs)
      | _, _ => none

/-- Viewing a parsed JSON document as a sequence of book records. -/
def decodeLibrary : Json → Option (List Book)
  | .arr js => decodeBooks js
  | _ => none

/-- State of the persistent location DATA_FILE = "library.json":
either the file does not exist, or it exists but its text is not valid
JSON (`json.load` raises json.JSONDecodeError), or it exists and its
text parses to the JSON value `j`. -/
inductive FileState where
  | missing
  | malformed
  | stored (j : Json)

/-- src/main.py lines 8-23, `load_library`.  If the file exists, its
contents are parsed by `json.load` and the parsed value is returned
as-is; on a decode error an error message is shown (second component
`true`) and the empty list is returned; if the file does not exist the
empty list is returned with no message.  The Python `[]` returned in
the fallback paths is the JSON value `arr []`. -/
def load_library : FileState → Json × Bool
  | .missing => (.arr [], false)
  | .malformed => (.arr [], true)
  | .stored j => (j, false)

/-- src/main.py lines 25-33, `save_library`.  `json.dump` writes the
list of book dictionaries to DATA_FILE; the file afterwards exists and
its text parses back (a guarantee of the json stdlib at the text level)
to exactly the dumped value, so the resulting file state stores the
JSON array of the encoded records. -/
def save_library (library : List Book) : FileState :=
  .stored (.arr (library.map bookToJson))

/-- src/main.py lines 35-58, `add_book`.  Builds the book dict from the
inputs, appends it to the library list, and shows a success message
naming the title (returned here as the String component; the quotation
marks around the title in the f-string are elided). -/
def add_book (library : List Book) (title author : String) (pub_year : Int)
    (genre : String) (read_status : Bool) : List Book × String :=
  let book : Book :=
    { title := title, author := author, publication_year := pub_year,
      genre := genre, read := read_status }
  (library ++ [book], "Added " ++ title ++ " to the library.")

/-- Python `str.lower()`: lowercase the string character by character.
(A character-wise case map; Lean's `Char.toLower` plays the role of the
per-character case conversion.) -/
def lowerStr (s : String) : String := ⟨s.data.map Char.toLower⟩

/-- src/main.py lines 60-78, `remove_book`.  Filters out, in place,
every book whose lowercased title equals the lowercased input, then
compares the new length with the original count; the Bool component is
`true` when st.success (removed) is shown and `false` when st.warning
(no book found) is shown. -/
def remove_book (library : List Book) (title : String) : List Book × Bool :=
  let newLibrary := library.filter (fun book => lowerStr book.title != lowerStr title)
  (newLibrary, decide (newLibrary.length < library.length))

/-- Python `needle in hay` on lists of characters: some position of
`hay` starts an occurrence of `needle`. -/
def charsHavePrefix : List Char → List Char → Bool
  | [], _ => true
  | _ :: _, [] => false
  | a :: as, b :: bs => a == b && charsHavePrefix as bs

/-- Substring test on character lists: `needle` occurs somewhere in `hay`. -/
def charsContain (hay needle : List Char) : Bool :=
  match hay with
  | [] => needle.isEmpty
  | _ :: t => charsHavePrefix needle hay || charsContain t needle

/-- Python `needle in hay` on strings (substring containment). -/
def strContains (hay needle : String) : Bool :=
  charsContain hay.toList needle.toList

/-- src/main.py lines 80-99, `search_books`.  Lowercases the keyword
and returns the books whose lowercased title or lowercased author
contains it as a substring; the input list is not modified. -/
def search_books (library : List Book) (keyword : String) : List Book :=
  let kw := lowerStr keyword
  library.filter (fun book =>
    strContains (lowerStr book.title) kw || strContains (lowerStr book.author) kw)

/-- src/main.py lines 101-118, `display_statistics`.  Returns the total
count and, when nonzero, the percentage of books whose read flag is
set, `(read_books / total_books) * 100`; on an empty library the
percentage is 0.  Python float arithmetic is modelled by exact rational
arithmetic. -/
def display_statistics (library : List Book) : Nat × ℚ :=
  let total_books := library.length
  if total_books = 0 then (total_books, 0)
  else
    let read_books := library.countP (fun book => book.read)
    (total_books, ((read_books : ℚ) / (total_books : ℚ)) * 100)

/-! ### Helper lemmas -/

theorem bookOfJson_bookToJson (b : Book) : bookOfJson (bookToJson b) = some b := by
  cases b
  rfl

theorem decodeBooks_map (l : List Book) :
    decodeBooks (l.map bookToJson) = some l := by
  induction l with
  | nil => rfl
  | cons b bs ih => simp [decodeBooks, bookOfJson_bookToJson, ih]

theorem charsContain_nil (hay : List Char) : charsContain hay [] = true := by
  cases hay <;> simp [charsContain, charsHavePrefix]

theorem charsHavePrefix_iff (needle hay : List Char) :
    charsHavePrefix needle hay = true ↔ ∃ r, hay = needle ++ r := by
  induction needle generalizing hay with
  | nil =>
    simp only [charsHavePrefix, List.nil_append, true_iff]
    exact ⟨hay, rfl⟩
  | cons a as ih =>
    cases hay with
    | nil =>
      simp only [charsHavePrefix, List.cons_append]
      constructor
      · intro h
        exact absurd h (by simp)
      · rintro ⟨r, h⟩
        exact absurd h (by simp)
    | cons b bs =>
      simp only [charsHavePrefix, Bool.and_eq_true, beq_iff_eq, ih, List.cons_append,
        List.cons.injEq]
      constructor
      · rintro ⟨hab, r, hr⟩
        exact ⟨r, hab.symm, hr⟩
      · rintro ⟨r, hba, hr⟩
        exact ⟨hba.symm, r, hr⟩

theorem charsContain_iff (hay needle : List Char) :
    charsContain hay needle = true ↔ ∃ l r, hay = l ++ needle ++ r := by
  induction hay with
  | nil =>
    simp only [charsContain, List.isEmpty_iff]
    constructor
    · intro h
      exact ⟨[], [], by simp [h]⟩
    · rintro ⟨l, r, h⟩
      rcases (List.append_eq_nil.mp (List.append_eq_nil.mp h.symm).1).2 with h2
      exact h2
  | cons a t ih =>
    simp only [charsContain, Bool.or_eq_true, charsHavePrefix_iff, ih]
    constructor
    · rintro (⟨r, hr⟩ | ⟨l, r, hr⟩)
      · exact ⟨[], r, by simp [hr]⟩
      · exact ⟨a :: l, r, by simp [hr]⟩
    · rintro ⟨l, r, hr⟩
      cases l with
      | nil =>
        exact Or.inl ⟨r, by simpa using hr⟩
      | cons x l' =>
        rw [List.cons_append, List.cons_append] at hr
        injection hr with hax hrest
        exact Or.inr ⟨l', r, hrest⟩

/-! ### Claim theorems -/

/-- C1: saving any valid collection and then loading it reconstructs the
collection field-for-field with order preserved: the load signals no
warning, and the loaded JSON document reads back as exactly the saved
list of records. -/
theorem save_load_roundtrip (C : List Book) :
    (load_library (save_library C)).2 = false ∧
    decodeLibrary (load_library (save_library C)).1 = some C := by
  refine ⟨rfl, ?_⟩
  simp [save_library, load_library, decodeLibrary, decodeBooks_map]

/-- C5: add appends exactly one new record, built from the field values,
at the end; the first `C.length` entries are exactly the old collection
(unmodified and unreordered) and the rest is the single new record. -/
theorem add_book_appends (C : List Book) (t a : String) (y : Int) (g : String)
    (r : Bool) :
    (add_book C t a y g r).1.length = C.length + 1 ∧
    (add_book C t a y g r).1.take C.length = C ∧
    (add_book C t a y g r).1.drop C.length = [⟨t, a, y, g, r⟩] := by
  refine ⟨?_, ?_, ?_⟩
  · simp [add_book]
  · exact List.take_left C [⟨t, a, y, g, r⟩]
  · exact List.drop_left C [⟨t, a, y, g, r⟩]

/-- C8: add never fails and performs no validation: for every input,
including empty title and author, it appends the record built from the
fields and signals success with the added title. -/
theorem add_book_no_validation :
    ∀ (C : List Book) (t a : String) (y : Int) (g : String) (r : Bool),
      add_book C t a y g r =
        (C ++ [⟨t, a, y, g, r⟩], "Added " ++ t ++ " to the library.") ∧
      add_book C "" "" y g r =
        (C ++ [⟨"", "", y, g, r⟩], "Added " ++ "" ++ " to the library.") :=
  fun _ _ _ _ _ _ => ⟨rfl, rfl⟩

/-- C6 counterexample: a stored file whose contents are valid JSON but
cannot be parsed as a sequence of book records (here the JSON string
"oops"): load returns that value unchanged — not an empty collection —
and signals no warning, contradicting the claim. -/
theorem load_library_nonlist_counterexample :
    decodeLibrary (Json.str "oops") = none ∧
    load_library (.stored (Json.str "oops")) = (Json.str "oops", false) ∧
    Json.str "oops" ≠ Json.arr [] :=
  ⟨rfl, rfl, fun h => Json.noConfusion h⟩

/-- C6 amended: load returns an empty collection (with no warning) when
the file is missing; when the file exists but its contents are not
valid JSON, load warns and returns an empty collection, leaving the
file untouched; when the contents are valid JSON — even JSON that is
not a sequence of book records — load returns the parsed value
unchanged with no warning. -/
theorem load_library_fallback :
    load_library .missing = (Json.arr [], false) ∧
    load_library .malformed = (Json.arr [], true) ∧
    decodeLibrary (Json.arr []) = some [] ∧
    ∀ j : Json, load_library (.stored j) = (j, false) :=
  ⟨rfl, rfl, rfl, fun _ => rfl⟩

/-- C9: searching with the empty keyword returns the entire collection
unchanged — the empty string is a substring of every title and author. -/
theorem search_books_empty_keyword (C : List Book) : search_books C "" = C := by
  apply List.filter_eq_self.mpr
  intro b _
  have h1 : lowerStr "" = "" := rfl
  simp [strContains, h1, charsContain_nil]

/-- C2: remove deletes exactly the records whose title equals the input
under full-string case-insensitive comparison: the result is a sublist
of the original (remaining records keep their contents and relative
order), every record with a matching title occurs zero times in it, and
every record with a non-matching title keeps its exact multiplicity. -/
theorem remove_book_removes_exactly (C : List Book) (t : String) :
    ((remove_book C t).1).Sublist C ∧
    ∀ b : Book, List.count b (remove_book C t).1 =
      if lowerStr b.title = lowerStr t then 0 else List.count b C := by
  simp only [remove_book]
  refine ⟨List.filter_sublist C, ?_⟩
  intro b
  by_cases h : lowerStr b.title = lowerStr t
  · rw [if_pos h, List.count_eq_zero]
    intro hb
    have hmem := List.mem_filter.mp hb
    rw [bne_iff_ne] at hmem
    exact hmem.2 h
  · rw [if_neg h]
    exact List.count_filter (by rw [bne_iff_ne]; exact h)

/-- C7: remove signals "removed" (st.success) exactly when the
collection shrank, which happens exactly when some record of the
original collection has a case-insensitively equal title; otherwise it
signals "not found" (st.warning). -/
theorem remove_book_signal (C : List Book) (t : String) :
    ((remove_book C t).2 = true ↔ (remove_book C t).1.length < C.length) ∧
    ((remove_book C t).2 = true ↔ ∃ b ∈ C, lowerStr b.title = lowerStr t) := by
  simp only [remove_book]
  refine ⟨decide_eq_true_iff, ?_⟩
  rw [decide_eq_true_iff, List.length_filter_lt_length_iff_exists]
  constructor
  · rintro ⟨b, hb, hp⟩
    rw [bne_iff_ne, Classical.not_not] at hp
    exact ⟨b, hb, hp⟩
  · rintro ⟨b, hb, hp⟩
    exact ⟨b, hb, by rw [bne_iff_ne]; exact fun hne => hne hp⟩

/-- C10: remove is idempotent: removing the same title from the result
of a removal changes nothing, and the second application signals "not
found" (signal component false). -/
theorem remove_book_idempotent (C : List Book) (t : String) :
    remove_book (remove_book C t).1 t = ((remove_book C t).1, false) := by
  have hfix : List.filter (fun book => lowerStr book.title != lowerStr t)
      (List.filter (fun book => lowerStr book.title != lowerStr t) C) =
      List.filter (fun book => lowerStr book.title != lowerStr t) C := by
    rw [List.filter_filter]
    simp
  simp [remove_book, hfix]

/-- C3: search returns exactly the records whose lowercased title or
lowercased author contains the lowercased keyword as a substring: the
result is a sublist of the collection (original order, original
untouched — the operation is pure), matching records keep their exact
multiplicity and non-matching ones are absent; and the containment test
means genuine substring occurrence (some decomposition hay = l ++
needle ++ r of the character sequences). -/
theorem search_books_spec (C : List Book) (k : String) :
    ((search_books C k).Sublist C) ∧
    (∀ b : Book, List.count b (search_books C k) =
      if (strContains (lowerStr b.title) (lowerStr k)
          || strContains (lowerStr b.author) (lowerStr k)) = true
      then List.count b C else 0) ∧
    (∀ hay needle : String, strContains hay needle = true ↔
      ∃ l r : List Char, hay.toList = l ++ needle.toList ++ r) := by
  refine ⟨List.filter_sublist C, ?_, ?_⟩
  · intro b
    by_cases h : (strContains (lowerStr b.title) (lowerStr k)
        || strContains (lowerStr b.author) (lowerStr k)) = true
    · rw [if_pos h]
      exact List.count_filter h
    · rw [if_neg h, List.count_eq_zero]
      intro hb
      exact h (List.mem_filter.mp hb).2
  · intro hay needle
    exact charsContain_iff hay.toList needle.toList

/-- C4: statistics returns the record count and the read percentage:
the count is the length of the collection, the percentage is 0 on an
empty collection and 100 * (number read) / count otherwise, and the
percentage always lies in [0, 100]. -/
theorem display_statistics_spec (C : List Book) :
    (display_statistics C).1 = C.length ∧
    (display_statistics C).2 =
      (if C.length = 0 then (0 : ℚ)
       else 100 * ((C.countP (fun b : Book => b.read) : ℕ) : ℚ) / (C.length : ℚ)) ∧
    0 ≤ (display_statistics C).2 ∧ (display_statistics C).2 ≤ 100 := by
  by_cases h : C.length = 0
  · simp [display_statistics, h]
  · have hpos : (0 : ℚ) < (C.length : ℚ) := by
      exact_mod_cast Nat.pos_of_ne_zero h
    have hle : ((C.countP fun b : Book => b.read : ℕ) : ℚ) ≤ (C.length : ℚ) := by
      exact_mod_cast List.countP_le_length (fun b : Book => b.read)
    have hnn : (0 : ℚ) ≤ ((C.countP fun b : Book => b.read : ℕ) : ℚ) := by positivity
    refine ⟨by simp [display_statistics, h], ?_, ?_, ?_⟩
    · simp only [display_statistics, if_neg h]
      ring
    · simp only [display_statistics, if_neg h]
      positivity
    · simp only [display_statistics, if_neg h]
      have hdiv : ((C.countP fun b : Book => b.read : ℕ) : ℚ) / (C.length : ℚ) ≤ 1 :=
        (div_le_one hpos).mpr hle
      calc ((C.countP fun b : Book => b.read : ℕ) : ℚ) / (C.length : ℚ) * 100
          ≤ 1 * 100 := by
            apply mul_le_mul_of_nonneg_right hdiv
            norm_num
        _ = 100 := by norm_num

end PLM
